import Mathlib

/-!
Verification of the TestEditor repository (AFNS Flutter engine stub and GTK demo).

The C++ plugin (`afns_engine.cc`) is embedded shallowly:
strings become `List Char`, the `std::string::find`/`replace` loop of
`ProcessAFNSCode` becomes the well-founded recursion `loopReplace` over
`findFrom` and `replaceAt`, faithfully keeping the `pos += 6` advance of the
source, and each engine method becomes a pure function threading the
`AFNSEngineExtension` record (field `internal_afns_state_`).  A structurally
recursive reference version `processR` is proved equal to the loop, which is
what makes the `pos += 6` jump of the loop provably harmless.  The GTK demo
(`afns_gui_demo.c`) is embedded as six button actions overwriting one buffer.
-/

set_option maxHeartbeats 1000000

set_option maxRecDepth 16384

/-- The literal search token `"fun "` of `ProcessAFNSCode`. -/
def funTok : List Char := ['f', 'u', 'n', ' ']

/-- The literal replacement token `"Widget "` of `ProcessAFNSCode`. -/
def widgetTok : List Char := ['W', 'i', 'd', 'g', 'e', 't', ' ']

/-- `matchAt s i` states that the token `"fun "` occurs in `s` starting at
position `i` (the condition tested by `result.find("fun ", pos) == i`). -/
def matchAt (s : List Char) (i : Nat) : Prop :=
  (s.drop i).take 4 = funTok

instance matchAt.instDecidable (s : List Char) (i : Nat) : Decidable (matchAt s i) :=
  inferInstanceAs (Decidable ((s.drop i).take 4 = funTok))

lemma take_four_iff (l : List Char) :
    l.take 4 = funTok ↔
      l[0]? = some 'f' ∧ l[1]? = some 'u' ∧ l[2]? = some 'n' ∧ l[3]? = some ' ' := by
  rcases l with _ | ⟨a, _ | ⟨b, _ | ⟨c, _ | ⟨d, t⟩⟩⟩⟩ <;>
    simp [funTok, List.take_succ_cons, and_assoc]

lemma matchAt_iff (s : List Char) (i : Nat) :
    matchAt s i ↔
      s[i]? = some 'f' ∧ s[i + 1]? = some 'u' ∧ s[i + 2]? = some 'n' ∧ s[i + 3]? = some ' ' := by
  unfold matchAt
  rw [take_four_iff]
  simp [List.getElem?_drop]

lemma matchAt_le {s : List Char} {i : Nat} (h : matchAt s i) : i + 4 ≤ s.length := by
  rcases (matchAt_iff s i).mp h with ⟨-, -, -, h3⟩
  rcases List.getElem?_eq_some.mp h3 with ⟨hlt, -⟩
  omega

lemma matchAt_cons_succ (c : Char) (cs : List Char) (j : Nat) :
    matchAt (c :: cs) (j + 1) ↔ matchAt cs j := by
  unfold matchAt
  rw [List.drop_succ_cons]

lemma matchAt_zero (s : List Char) : matchAt s 0 ↔ s.take 4 = funTok := by
  unfold matchAt
  rw [List.drop_zero]

lemma matchAt_append_shift (a b : List Char) (k : Nat) :
    matchAt (a ++ b) (a.length + k) ↔ matchAt b k := by
  unfold matchAt
  rw [List.drop_append]

/-- Embedding of `result.find("fun ", pos)`: the least index `i ≥ pos` at which
`"fun "` occurs, or `none` (`std::string::npos`) when there is none. -/
def findFrom (s : List Char) (pos : Nat) : Option Nat :=
  if s.length ≤ pos then none
  else if matchAt s pos then some pos
  else findFrom s (pos + 1)
termination_by s.length - pos
decreasing_by omega

lemma findFrom_none_iff (s : List Char) (pos : Nat) :
    findFrom s pos = none ↔ ∀ j, pos ≤ j → ¬ matchAt s j := by
  refine findFrom.induct s
    (fun p => findFrom s p = none ↔ ∀ j, p ≤ j → ¬ matchAt s j) ?_ ?_ ?_ pos
  · intro pos h
    rw [findFrom]
    simp only [if_pos h]
    constructor
    · intro _ j hj hm
      have := matchAt_le hm
      omega
    · intro _
      trivial
  · intro pos h hm
    rw [findFrom]
    simp only [if_neg h, if_pos hm]
    constructor
    · intro hc
      exact absurd hc (by simp)
    · intro hall
      exact absurd hm (hall pos le_rfl)
  · intro pos h hm ih
    rw [findFrom]
    simp only [if_neg h, if_neg hm]
    rw [ih]
    constructor
    · intro hall j hj
      rcases Nat.eq_or_lt_of_le hj with rfl | hlt
      · exact hm
      · exact hall j hlt
    · intro hall j hj
      exact hall j (Nat.le_of_succ_le hj)

lemma findFrom_some_iff (s : List Char) (pos : Nat) (i : Nat) :
    findFrom s pos = some i ↔
      pos ≤ i ∧ matchAt s i ∧ ∀ j, pos ≤ j → j < i → ¬ matchAt s j := by
  refine findFrom.induct s
    (fun p => findFrom s p = some i ↔
      p ≤ i ∧ matchAt s i ∧ ∀ j, p ≤ j → j < i → ¬ matchAt s j) ?_ ?_ ?_ pos
  · intro pos h
    rw [findFrom]
    simp only [if_pos h]
    constructor
    · intro hc
      exact absurd hc (by simp)
    · rintro ⟨hpi, hm, -⟩
      have := matchAt_le hm
      omega
  · intro pos h hm
    rw [findFrom]
    simp only [if_neg h, if_pos hm]
    constructor
    · intro hc
      have : pos = i := by exact Option.some.inj hc
      subst this
      exact ⟨le_rfl, hm, fun j hj hij => by omega⟩
    · rintro ⟨hpi, hmi, hmin⟩
      rcases Nat.eq_or_lt_of_le hpi with rfl | hlt
      · rfl
      · exact absurd hm (hmin pos le_rfl hlt)
  · intro pos h hm ih
    rw [findFrom]
    simp only [if_neg h, if_neg hm]
    rw [ih]
    constructor
    · rintro ⟨hpi, hmi, hmin⟩
      refine ⟨Nat.le_of_succ_le hpi, hmi, fun j hj hij => ?_⟩
      rcases Nat.eq_or_lt_of_le hj with rfl | hlt
      · exact hm
      · exact hmin j hlt hij
    · rintro ⟨hpi, hmi, hmin⟩
      have hne : pos ≠ i := by
        rintro rfl
        exact hm hmi
      refine ⟨by omega, hmi, fun j hj hij => hmin j (Nat.le_of_succ_le hj) hij⟩

lemma widgetTok_length : widgetTok.length = 7 := rfl

/-- Embedding of `result.replace(pos, 4, "Widget ")` at index `i`. -/
def replaceAt (s : List Char) (i : Nat) : List Char :=
  s.take i ++ widgetTok ++ s.drop (i + 4)

lemma length_replaceAt {s : List Char} {i : Nat} (h : i + 4 ≤ s.length) :
    (replaceAt s i).length = s.length + 3 := by
  simp only [replaceAt, List.length_append, List.length_take, List.length_drop,
    widgetTok_length]
  omega

/-- Embedding of the `while ((pos = result.find("fun ", pos)) != npos)` loop of
`ProcessAFNSCode`: replace at the found index, resume the search at `pos + 6`,
exactly as the source does.  The second component counts the `replace` calls
performed (the source keeps no counter; the count is the instrumentation needed
to state the replacement-count property of the spec). -/
def loopReplace (s : List Char) (pos : Nat) : List Char × Nat :=
  match h : findFrom s pos with
  | none => (s, 0)
  | some i =>
    let r := loopReplace (replaceAt s i) (i + 6)
    (r.1, r.2 + 1)
termination_by s.length - pos
decreasing_by
  rcases (findFrom_some_iff s pos i).mp h with ⟨hpi, hmi, -⟩
  have h4 := matchAt_le hmi
  rw [length_replaceAt h4]
  omega

/-- Embedding of `ProcessAFNSCode` (the string the loop returns). -/
def ProcessAFNSCode (code : List Char) : List Char :=
  (loopReplace code 0).1

/-- The number of `replace` calls `ProcessAFNSCode` performs on `code`. -/
def ProcessAFNSCodeCount (code : List Char) : Nat :=
  (loopReplace code 0).2

lemma findFrom_succ {s : List Char} {pos : Nat} (h : ¬ matchAt s pos) :
    findFrom s pos = findFrom s (pos + 1) := by
  rw [findFrom]
  by_cases hl : s.length ≤ pos
  · rw [if_pos hl, findFrom, if_pos (by omega)]
  · rw [if_neg hl, if_neg h]

lemma loopReplace_eq_none {s : List Char} {pos : Nat} (h : findFrom s pos = none) :
    loopReplace s pos = (s, 0) := by
  rw [loopReplace.eq_def]
  split
  · rfl
  · rename_i i heq
    rw [h] at heq
    cases heq

lemma loopReplace_eq_some {s : List Char} {pos i : Nat} (h : findFrom s pos = some i) :
    loopReplace s pos =
      ((loopReplace (replaceAt s i) (i + 6)).1,
        (loopReplace (replaceAt s i) (i + 6)).2 + 1) := by
  rw [loopReplace.eq_def]
  split
  · rename_i heq
    rw [h] at heq
    cases heq
  · rename_i j heq
    rw [h] at heq
    obtain rfl : j = i := (Option.some.inj heq).symm
    rfl

lemma loopReplace_succ {s : List Char} {pos : Nat} (h : ¬ matchAt s pos) :
    loopReplace s pos = loopReplace s (pos + 1) := by
  rcases hf : findFrom s (pos + 1) with _ | i
  · rw [loopReplace_eq_none (by rw [findFrom_succ h, hf]), loopReplace_eq_none hf]
  · rw [loopReplace_eq_some (show findFrom s pos = some i by rw [findFrom_succ h, hf]),
        loopReplace_eq_some hf]

/-- Structurally recursive reference version of `ProcessAFNSCode`, scanning
left to right: a `"fun "` head is rewritten to `"Widget "` (consuming the
token and counting one replacement), any other head character is copied.
`loopReplace_eq_processR` below proves it equal to the source loop. -/
def processR : List Char → List Char × Nat
  | 'f' :: 'u' :: 'n' :: ' ' :: rest =>
    ((widgetTok ++ (processR rest).1), (processR rest).2 + 1)
  | c :: cs => (c :: (processR cs).1, (processR cs).2)
  | [] => ([], 0)

lemma processR_cons_nomatch {c : Char} {cs : List Char} (h : ¬ matchAt (c :: cs) 0) :
    processR (c :: cs) = ((c :: (processR cs).1), (processR cs).2) := by
  rw [processR.eq_def]
  split
  · rename_i rest heq
    exfalso
    apply h
    cases heq
    simp [matchAt, funTok]
  · rename_i c' cs' hne heq
    cases heq
    rfl
  · rename_i heq
    cases heq

lemma matchAt_zero_shape {s : List Char} (h : matchAt s 0) :
    ∃ rest, s = 'f' :: 'u' :: 'n' :: ' ' :: rest := by
  have hb : s.take 4 = funTok := (matchAt_zero s).mp h
  refine ⟨s.drop 4, ?_⟩
  conv_lhs => rw [← List.take_append_drop 4 s]
  rw [hb]
  rfl

lemma processR_no_match : ∀ {b : List Char}, (∀ k, ¬ matchAt b k) → processR b = (b, 0) := by
  intro b
  induction b with
  | nil => intro _; rfl
  | cons c cs ih =>
    intro hall
    rw [processR_cons_nomatch (hall 0),
      ih (fun k hk => hall (k + 1) ((matchAt_cons_succ c cs k).mpr hk))]

lemma processR_first (k : Nat) : ∀ (b : List Char), matchAt b k →
    (∀ j, j < k → ¬ matchAt b j) →
    processR b = (b.take k ++ widgetTok ++ (processR (b.drop (k + 4))).1,
      (processR (b.drop (k + 4))).2 + 1) := by
  induction k with
  | zero =>
    intro b hm _
    obtain ⟨rest, rfl⟩ := matchAt_zero_shape hm
    rfl
  | succ k ih =>
    intro b hm hmin
    rcases b with _ | ⟨c, cs⟩
    · have := matchAt_le hm
      simp at this
    · have h0 : ¬ matchAt (c :: cs) 0 := hmin 0 (Nat.succ_pos k)
      rw [processR_cons_nomatch h0]
      have hm' : matchAt cs k := (matchAt_cons_succ c cs k).mp hm
      have hmin' : ∀ j, j < k → ¬ matchAt cs j := fun j hj hc =>
        hmin (j + 1) (by omega) ((matchAt_cons_succ c cs j).mpr hc)
      rw [ih cs hm' hmin']
      rfl

/-- Number of positions of `s` at which the token `"fun "` occurs.  The token
cannot overlap itself, so this is also the number of non-overlapping
occurrences that a left-to-right scan finds. -/
def countOcc : List Char → Nat
  | [] => 0
  | c :: cs => (if matchAt (c :: cs) 0 then 1 else 0) + countOcc cs

lemma countOcc_eq_zero_iff : ∀ {s : List Char}, countOcc s = 0 ↔ ∀ j, ¬ matchAt s j := by
  intro s
  induction s with
  | nil =>
    constructor
    · intro _ j hm
      have := matchAt_le hm
      simp at this
    · intro _
      rfl
  | cons c cs ih =>
    by_cases hm : matchAt (c :: cs) 0
    · rw [countOcc, if_pos hm]
      constructor
      · intro h
        exact absurd h (by omega)
      · intro hall
        exact absurd hm (hall 0)
    · rw [countOcc, if_neg hm, Nat.zero_add, ih]
      constructor
      · intro hall j
        cases j with
        | zero => exact hm
        | succ j => exact fun hc => hall j ((matchAt_cons_succ c cs j).mp hc)
      · intro hall j hc
        exact hall (j + 1) ((matchAt_cons_succ c cs j).mpr hc)

lemma countOcc_cons_of_ne {c : Char} (h : c ≠ 'f') (cs : List Char) :
    countOcc (c :: cs) = countOcc cs := by
  rw [countOcc, if_neg, Nat.zero_add]
  intro hm
  rcases (matchAt_iff _ 0).mp hm with ⟨h0, -⟩
  rw [List.getElem?_cons_zero] at h0
  exact h (Option.some.inj h0)

lemma countOcc_funTok_cons (t : List Char) :
    countOcc ('f' :: 'u' :: 'n' :: ' ' :: t) = 1 + countOcc t := by
  rw [countOcc, if_pos (by rfl), countOcc_cons_of_ne (by decide),
    countOcc_cons_of_ne (by decide), countOcc_cons_of_ne (by decide)]

lemma countOcc_widget_append (t : List Char) :
    countOcc (widgetTok ++ t) = countOcc t := by
  show countOcc ('W' :: 'i' :: 'd' :: 'g' :: 'e' :: 't' :: ' ' :: t) = countOcc t
  rw [countOcc_cons_of_ne (by decide), countOcc_cons_of_ne (by decide),
    countOcc_cons_of_ne (by decide), countOcc_cons_of_ne (by decide),
    countOcc_cons_of_ne (by decide), countOcc_cons_of_ne (by decide),
    countOcc_cons_of_ne (by decide)]

lemma processR_count : ∀ b : List Char, (processR b).2 = countOcc b := by
  intro b
  refine processR.induct (fun b => (processR b).2 = countOcc b) ?_ ?_ ?_ b
  · intro rest ih
    rw [countOcc_funTok_cons]
    show (processR rest).2 + 1 = 1 + countOcc rest
    rw [ih]
    omega
  · intro c cs hne ih
    have h0 : ¬ matchAt (c :: cs) 0 := by
      intro hm
      obtain ⟨rest, hs⟩ := matchAt_zero_shape hm
      injection hs with h1 h2
      exact hne rest h1 h2
    rw [processR_cons_nomatch h0, countOcc, if_neg h0, Nat.zero_add]
    exact ih
  · rfl

lemma processR_take_one {cs : List Char}
    (h : ((processR cs).1).take 1 = [' ']) : cs.take 1 = [' '] := by
  rcases cs with _ | ⟨c, cs'⟩
  · cases h
  · by_cases hm : matchAt (c :: cs') 0
    · obtain ⟨rest, hs⟩ := matchAt_zero_shape hm
      rw [hs] at h
      cases h
    · rw [processR_cons_nomatch hm] at h
      simp only [List.take_succ_cons, List.take_zero] at h ⊢
      exact h

lemma processR_take_two {cs : List Char}
    (h : ((processR cs).1).take 2 = ['n', ' ']) : cs.take 2 = ['n', ' '] := by
  rcases cs with _ | ⟨c, cs'⟩
  · cases h
  · by_cases hm : matchAt (c :: cs') 0
    · obtain ⟨rest, hs⟩ := matchAt_zero_shape hm
      rw [hs] at h
      cases h
    · rw [processR_cons_nomatch hm] at h
      simp only [List.take_succ_cons] at h ⊢
      injection h with h1 h2
      rw [h1, processR_take_one h2]

lemma processR_take_three {cs : List Char}
    (h : ((processR cs).1).take 3 = ['u', 'n', ' ']) : cs.take 3 = ['u', 'n', ' '] := by
  rcases cs with _ | ⟨c, cs'⟩
  · cases h
  · by_cases hm : matchAt (c :: cs') 0
    · obtain ⟨rest, hs⟩ := matchAt_zero_shape hm
      rw [hs] at h
      cases h
    · rw [processR_cons_nomatch hm] at h
      simp only [List.take_succ_cons] at h ⊢
      injection h with h1 h2
      rw [h1, processR_take_two h2]

lemma processR_no_match_head {c : Char} {cs : List Char} (hm : ¬ matchAt (c :: cs) 0) :
    ¬ matchAt (c :: (processR cs).1) 0 := by
  intro hc
  obtain ⟨rest, hs⟩ := matchAt_zero_shape hc
  injection hs with h1 h2
  apply hm
  have h3 : ((processR cs).1).take 3 = ['u', 'n', ' '] := by rw [h2]; rfl
  have h4 : cs.take 3 = ['u', 'n', ' '] := processR_take_three h3
  have h5 : cs = 'u' :: 'n' :: ' ' :: cs.drop 3 := by
    conv_lhs => rw [← List.take_append_drop 3 cs]
    rw [h4]
    rfl
  rw [matchAt_zero, h1, h5]
  rfl

lemma countOcc_processR : ∀ b : List Char, countOcc ((processR b).1) = 0 := by
  intro b
  refine processR.induct (fun b => countOcc ((processR b).1) = 0) ?_ ?_ ?_ b
  · intro rest ih
    show countOcc (widgetTok ++ (processR rest).1) = 0
    rw [countOcc_widget_append]
    exact ih
  · intro c cs hne ih
    have h0 : ¬ matchAt (c :: cs) 0 := by
      intro hm
      obtain ⟨rest, hs⟩ := matchAt_zero_shape hm
      injection hs with h1 h2
      exact hne rest h1 h2
    rw [processR_cons_nomatch h0]
    show countOcc (c :: (processR cs).1) = 0
    rw [countOcc, if_neg (processR_no_match_head h0), Nat.zero_add]
    exact ih
  · rfl

lemma loopReplace_append : ∀ (n : Nat) (b a : List Char), b.length ≤ n →
    (∀ j, j < a.length → ¬ matchAt (a ++ b) j) →
    loopReplace (a ++ b) a.length = (a ++ (processR b).1, (processR b).2) := by
  intro n
  induction n with
  | zero =>
    intro b a hb H
    have hb0 : b = [] := List.length_eq_zero.mp (Nat.le_zero.mp hb)
    subst hb0
    have hex : ∀ k, ¬ matchAt ([] : List Char) k := by
      intro k hm
      have := matchAt_le hm
      simp at this
    have hnone : findFrom (a ++ []) a.length = none := by
      rw [findFrom_none_iff]
      intro j hj hm
      obtain ⟨k', rfl⟩ := Nat.exists_eq_add_of_le hj
      exact hex k' ((matchAt_append_shift a [] k').mp hm)
    rw [loopReplace_eq_none hnone, processR_no_match hex]
  | succ n ihn =>
    intro b a hb H
    by_cases hex : ∃ k, matchAt b k
    · have hmk : matchAt b (Nat.find hex) := Nat.find_spec hex
      set k := Nat.find hex with hkdef
      have hmink : ∀ j, j < k → ¬ matchAt b j := fun j hj => Nat.find_min hex hj
      have hk4 : k + 4 ≤ b.length := matchAt_le hmk
      have hfind : findFrom (a ++ b) a.length = some (a.length + k) := by
        rw [findFrom_some_iff]
        refine ⟨Nat.le_add_right _ _, (matchAt_append_shift a b k).mpr hmk, ?_⟩
        intro j hj hjlt
        obtain ⟨k', rfl⟩ := Nat.exists_eq_add_of_le hj
        rw [matchAt_append_shift]
        exact hmink k' (by omega)
      have hrepl : replaceAt (a ++ b) (a.length + k)
          = (a ++ b.take k ++ widgetTok) ++ b.drop (k + 4) := by
        unfold replaceAt
        rw [List.take_append]
        have h46 : a.length + k + 4 = a.length + (k + 4) := by omega
        rw [h46, List.drop_append]
      have hA2len : (a ++ b.take k).length = a.length + k := by
        simp only [List.length_append, List.length_take]
        omega
      have hA1len : (a ++ b.take k ++ widgetTok).length = a.length + k + 7 := by
        simp only [List.length_append, List.length_take, widgetTok_length]
        omega
      have ha1 : ∀ m, m < a.length + k →
          ((a ++ b.take k ++ widgetTok) ++ b.drop (k + 4))[m]? = (a ++ b)[m]? := by
        intro m hm
        rw [List.getElem?_append, if_pos (by rw [hA1len]; omega),
          List.getElem?_append, if_pos (by rw [hA2len]; omega),
          show a ++ b.take k = (a ++ b).take (a.length + k) from (List.take_append k).symm,
          List.getElem?_take, if_pos hm]
      have ha2 : ∀ t, t < 7 →
          ((a ++ b.take k ++ widgetTok) ++ b.drop (k + 4))[a.length + k + t]?
            = widgetTok[t]? := by
        intro t ht
        rw [List.getElem?_append, if_pos (by rw [hA1len]; omega),
          List.getElem?_append_right (by rw [hA2len]; omega)]
        congr 1
        rw [hA2len]
        omega
      have hnm6 : ¬ matchAt ((a ++ b.take k ++ widgetTok) ++ b.drop (k + 4))
          (a.length + k + 6) := by
        intro hm6
        rcases (matchAt_iff _ _).mp hm6 with ⟨h0, -, -, -⟩
        rw [ha2 6 (by omega)] at h0
        exact absurd h0 (by decide)
      have hH' : ∀ j, j < (a ++ b.take k ++ widgetTok).length →
          ¬ matchAt ((a ++ b.take k ++ widgetTok) ++ b.drop (k + 4)) j := by
        intro j hj hm
        rw [hA1len] at hj
        rcases (matchAt_iff _ j).mp hm with ⟨e0, e1, e2, e3⟩
        by_cases hj1 : j + 4 ≤ a.length + k
        · have hmm : matchAt (a ++ b) j := by
            rw [matchAt_iff]
            exact ⟨by rw [← ha1 j (by omega)]; exact e0,
              by rw [← ha1 (j + 1) (by omega)]; exact e1,
              by rw [← ha1 (j + 2) (by omega)]; exact e2,
              by rw [← ha1 (j + 3) (by omega)]; exact e3⟩
          by_cases hj2 : j < a.length
          · exact H j hj2 hmm
          · obtain ⟨k', rfl⟩ := Nat.exists_eq_add_of_le (Nat.le_of_not_lt hj2)
            exact hmink k' (by omega) ((matchAt_append_shift a b k').mp hmm)
        · by_cases hj3 : a.length + k ≤ j
          · obtain ⟨t, rfl⟩ := Nat.exists_eq_add_of_le hj3
            have ht : t < 7 := by omega
            rw [ha2 t ht] at e0
            interval_cases t <;> exact absurd e0 (by decide)
          · have hW : ((a ++ b.take k ++ widgetTok) ++ b.drop (k + 4))[a.length + k]?
                = some 'W' := by
              have h00 := ha2 0 (by omega)
              simpa using h00
            have hd : a.length + k - j = 1 ∨ a.length + k - j = 2 ∨ a.length + k - j = 3 := by
              omega
            rcases hd with hd | hd | hd
            · rw [show j + 1 = a.length + k by omega, hW] at e1
              exact absurd e1 (by decide)
            · rw [show j + 2 = a.length + k by omega, hW] at e2
              exact absurd e2 (by decide)
            · rw [show j + 3 = a.length + k by omega, hW] at e3
              exact absurd e3 (by decide)
      rw [loopReplace_eq_some hfind, hrepl,
        loopReplace_succ hnm6,
        show a.length + k + 6 + 1 = (a ++ b.take k ++ widgetTok).length by rw [hA1len],
        ihn (b.drop (k + 4)) (a ++ b.take k ++ widgetTok) (by simp; omega) hH',
        processR_first k b hmk hmink]
      simp [List.append_assoc]
    · push_neg at hex
      have hnone : findFrom (a ++ b) a.length = none := by
        rw [findFrom_none_iff]
        intro j hj hm
        obtain ⟨k', rfl⟩ := Nat.exists_eq_add_of_le hj
        exact hex k' ((matchAt_append_shift a b k').mp hm)
      rw [loopReplace_eq_none hnone, processR_no_match hex]

/-- The loop of `ProcessAFNSCode` computes exactly the left-to-right rewriting
`processR`: the `pos += 6` advance never skips an occurrence, and the inserted
`"Widget "` never creates one. -/
lemma loopReplace_eq_processR (code : List Char) :
    loopReplace code 0 = ((processR code).1, (processR code).2) := by
  have h := loopReplace_append code.length code [] le_rfl
    (by intro j hj; simp at hj)
  simpa using h

lemma ProcessAFNSCode_eq (code : List Char) :
    ProcessAFNSCode code = (processR code).1 := by
  unfold ProcessAFNSCode
  rw [loopReplace_eq_processR]

lemma ProcessAFNSCodeCount_eq (code : List Char) :
    ProcessAFNSCodeCount code = countOcc code := by
  unfold ProcessAFNSCodeCount
  rw [loopReplace_eq_processR]
  exact processR_count code

/-- Embedding of the engine class `AFNSEngineExtension`: its only data member
that is ever read or written is the mutable string `internal_afns_state_`
(`afns_compiler_handle_` is never touched and is omitted). -/
structure AFNSEngineExtension where
  internal_afns_state_ : List Char
deriving DecidableEq

/-- The constructor `AFNSEngineExtension()`: sets the state sentinel. -/
def mkAFNSEngineExtension : AFNSEngineExtension :=
  ⟨"AFNS_ENGINE_ACTIVE".toList⟩

/-- Embedding of `ValidateAFNSCode`: `!code.empty() && code.length() > 0`. -/
def ValidateAFNSCode (code : List Char) : Bool :=
  !code.isEmpty && decide (0 < code.length)

/-- Embedding of `CompileAFNSWidget`.  The pair is (return value, engine after
the call); the method never assigns to the state. -/
def CompileAFNSWidget (e : AFNSEngineExtension) (afns_code : List Char) :
    List Char × AFNSEngineExtension :=
  if !ValidateAFNSCode afns_code then
    ("error: invalid_afns_code".toList, e)
  else
    ("Flutter Widget Generated from AFNS: ".toList ++ ProcessAFNSCode afns_code, e)

/-- Embedding of `ExecuteAFNSLogic`: on valid input it overwrites
`internal_afns_state_` with `"EXECUTED: " + processed_code` and returns the
processed code. -/
def ExecuteAFNSLogic (e : AFNSEngineExtension) (afns_code : List Char) :
    List Char × AFNSEngineExtension :=
  if !ValidateAFNSCode afns_code then
    ("error: invalid_afns_logic".toList, e)
  else
    (ProcessAFNSCode afns_code,
      { e with internal_afns_state_ := "EXECUTED: ".toList ++ ProcessAFNSCode afns_code })

/-- Embedding of `UpdateAFNSSState`. -/
def UpdateAFNSSState (e : AFNSEngineExtension) (state : List Char) : AFNSEngineExtension :=
  { e with internal_afns_state_ := state }

/-- Embedding of `GetAFNSSState`. -/
def GetAFNSSState (e : AFNSEngineExtension) : List Char :=
  e.internal_afns_state_

/-- Embedding of the JNI entry point `nativeCompileAFNSWidget`: it constructs
a fresh local `AFNSEngineExtension`, calls `CompileAFNSWidget` on it, and
discards the local engine.  The global singleton `g_afns_engine` (threaded
through as `g`) is neither read nor written by this entry point. -/
def nativeCompileAFNSWidget (g : Option AFNSEngineExtension) (afns_code : List Char) :
    List Char × Option AFNSEngineExtension :=
  ((CompileAFNSWidget mkAFNSEngineExtension afns_code).1, g)

/-- Embedding of the JNI entry point `nativeExecuteAFNSLogic`: fresh local
engine, call, local engine (including its updated state) discarded; the
global singleton is neither read nor written. -/
def nativeExecuteAFNSLogic (g : Option AFNSEngineExtension) (afns_code : List Char) :
    List Char × Option AFNSEngineExtension :=
  ((ExecuteAFNSLogic mkAFNSEngineExtension afns_code).1, g)

/-- Embedding of `GetAFNSEngine`: lazily constructs the global singleton. -/
def GetAFNSEngine (g : Option AFNSEngineExtension) :
    AFNSEngineExtension × Option AFNSEngineExtension :=
  match g with
  | none => (mkAFNSEngineExtension, some mkAFNSEngineExtension)
  | some e => (e, some e)

lemma ValidateAFNSCode_eq_true {code : List Char} (h : code ≠ []) :
    ValidateAFNSCode code = true := by
  unfold ValidateAFNSCode
  simp [List.isEmpty_iff, h, List.length_pos]

lemma CompileAFNSWidget_eq_of_ne {e : AFNSEngineExtension} {code : List Char} (h : code ≠ []) :
    CompileAFNSWidget e code
      = ("Flutter Widget Generated from AFNS: ".toList ++ ProcessAFNSCode code, e) := by
  unfold CompileAFNSWidget
  rw [ValidateAFNSCode_eq_true h]
  rfl

lemma ExecuteAFNSLogic_eq_of_ne {e : AFNSEngineExtension} {code : List Char} (h : code ≠ []) :
    ExecuteAFNSLogic e code
      = (ProcessAFNSCode code, ⟨"EXECUTED: ".toList ++ ProcessAFNSCode code⟩) := by
  unfold ExecuteAFNSLogic
  rw [ValidateAFNSCode_eq_true h]
  rfl

/-- The six demo buttons of `afns_gui_demo.c`. -/
inductive DemoButton
  | initBtn
  | windowBtn
  | buttonBtn
  | textfieldBtn
  | dialogBtn
  | demoBtn
deriving DecidableEq

/-- The fixed literal each button callback copies into `afns_result_buffer`. -/
def buttonLit : DemoButton → String
  | .initBtn => "🚀 AFNS Flutter Integration Initialized!\nPlatform: Cross-platform Native\nPerformance: Maximum Speed"
  | .windowBtn => "FlutterWindow(id::string = \"main\", title::string = \"AFNS Professional Flutter Application\", width::i32 = 1024, height::i32 = 768)"
  | .buttonBtn => "FlutterButton(id::string = \"btn_save\", text::string = \"Save Project\", x::i32 = 50, y::i32 = 50)"
  | .textfieldBtn => "FlutterTextField(id::string = \"txt_project\", placeholder::string = \"Project Name\", x::i32 = 50, y::i32 = 100, width::i32 = 200)"
  | .dialogBtn => "FlutterDialog(title::string = \"Success\", message::string = \"AFNS GUI Application is working!\", modal::bool = true)"
  | .demoBtn => "🎨 AFNS GUI Demo Running!\n===========================\n✅ All Flutter components initialized\n✅ Cross-platform compatibility: 100%\n✅ Performance: Maximum speed\n✅ Professional GUI: Working!\n\n💎 AFNS Language = Professional GUI Platform!"

/-- The initial text `main` copies into the buffer before the GTK loop. -/
def initialLit : String :=
  "🎨 AFNS GUI Application Ready!\n\nClick buttons above to test AFNS Flutter functions...\n\n✅ AFNS Compiler: Built successfully\n✅ Flutter Integration: Ready\n✅ Cross-platform: Linux/Windows/macOS/Android/iOS/Web\n✅ Professional GUI: Fully functional"

/-- Size of the global `char afns_result_buffer[1024]`. -/
def afnsResultBufferSize : Nat := 1024

/-- Embedding of one button callback: `strcpy(afns_result_buffer, LIT)`
overwrites the display buffer with the literal of the button, ignoring the prior
contents; `gtk_text_buffer_set_text` then mirrors the buffer into the view. -/
def clickCallback (b : DemoButton) (afns_result_buffer : List Char) : List Char :=
  (buttonLit b).toList

/-- C1: for input containing one or more occurrences of `"fun "` — exhibited
by its leftmost split `code = a ++ "fun " ++ b` — `ProcessAFNSCode` replaces
that leftmost occurrence with `"Widget "` and continues on the tail (so the
rewriting is left-to-right, non-overlapping and touches nothing else), the
number of replacements performed equals the number of occurrences of `"fun "`
in the input, and `CompileAFNSWidget` / `ExecuteAFNSLogic` on such (non-empty)
input return exactly the substituted string, compile with its fixed prefix. -/
theorem c1_replaces_each_occurrence (e : AFNSEngineExtension) (code a b : List Char)
    (hsplit : code = a ++ funTok ++ b)
    (hmin : ∀ j, j < a.length → ¬ matchAt code j) :
    1 ≤ countOcc code ∧
    ProcessAFNSCode code = a ++ widgetTok ++ ProcessAFNSCode b ∧
    ProcessAFNSCodeCount code = countOcc code ∧
    (CompileAFNSWidget e code).1
      = "Flutter Widget Generated from AFNS: ".toList ++ ProcessAFNSCode code ∧
    (ExecuteAFNSLogic e code).1 = ProcessAFNSCode code := by
  have hne : code ≠ [] := by
    rw [hsplit]
    simp [funTok]
  have hm : matchAt code a.length := by
    rw [hsplit]
    have h0 : matchAt (funTok ++ b) 0 := by
      rw [matchAt_zero]
      rfl
    have h1 := (matchAt_append_shift a (funTok ++ b) 0).mpr h0
    simpa using h1
  have h1 : 1 ≤ countOcc code := by
    rcases Nat.eq_zero_or_pos (countOcc code) with h0 | h0
    · exact absurd hm (countOcc_eq_zero_iff.mp h0 a.length)
    · exact h0
  have htake : code.take a.length = a := by
    rw [hsplit, List.append_assoc]
    exact List.take_left a (funTok ++ b)
  have hdrop : code.drop (a.length + 4) = b := by
    rw [hsplit, List.append_assoc, List.drop_append]
    rfl
  have hPfirst := processR_first a.length code hm hmin
  have hmain : ProcessAFNSCode code = a ++ widgetTok ++ ProcessAFNSCode b := by
    rw [ProcessAFNSCode_eq, ProcessAFNSCode_eq, hPfirst, htake, hdrop]
  refine ⟨h1, hmain, ProcessAFNSCodeCount_eq code, ?_, ?_⟩
  · rw [CompileAFNSWidget_eq_of_ne hne]
  · rw [ExecuteAFNSLogic_eq_of_ne hne]

/-- C1 witness: the theorem applied at the concrete input `"fun main"` with
its leftmost split `[] ++ "fun " ++ "main"`. -/
theorem c1_replaces_each_occurrence_witness :
    1 ≤ countOcc "fun main".toList ∧
    ProcessAFNSCode "fun main".toList
      = [] ++ widgetTok ++ ProcessAFNSCode "main".toList ∧
    ProcessAFNSCodeCount "fun main".toList = countOcc "fun main".toList ∧
    (CompileAFNSWidget mkAFNSEngineExtension "fun main".toList).1
      = "Flutter Widget Generated from AFNS: ".toList
          ++ ProcessAFNSCode "fun main".toList ∧
    (ExecuteAFNSLogic mkAFNSEngineExtension "fun main".toList).1
      = ProcessAFNSCode "fun main".toList :=
  c1_replaces_each_occurrence mkAFNSEngineExtension "fun main".toList [] "main".toList
    (by decide) (fun j hj => absurd hj (by simp))

/-- C2: on empty input both operations return their fixed error sentinel and
leave the engine (its `internal_afns_state_`) untouched. -/
theorem c2_empty_input_error_no_mutation (e : AFNSEngineExtension) :
    CompileAFNSWidget e [] = ("error: invalid_afns_code".toList, e) ∧
    ExecuteAFNSLogic e [] = ("error: invalid_afns_logic".toList, e) :=
  ⟨rfl, rfl⟩

/-- C3: after a successful execute with non-empty input `x`, the state read
returns `"EXECUTED: "` followed by the substituted form of `x` while the call
itself returned the substituted form unprefixed; in particular executing
`"fun main"` leaves the state `"EXECUTED: Widget main"` and returns
`"Widget main"`. -/
theorem c3_execute_updates_state (e : AFNSEngineExtension) (x : List Char)
    (h : x ≠ []) :
    (ExecuteAFNSLogic e x).1 = ProcessAFNSCode x ∧
    GetAFNSSState (ExecuteAFNSLogic e x).2
      = "EXECUTED: ".toList ++ ProcessAFNSCode x ∧
    GetAFNSSState (ExecuteAFNSLogic mkAFNSEngineExtension "fun main".toList).2
      = "EXECUTED: Widget main".toList ∧
    (ExecuteAFNSLogic mkAFNSEngineExtension "fun main".toList).1
      = "Widget main".toList := by
  have hmain : ProcessAFNSCode "fun main".toList = "Widget main".toList := by
    rw [ProcessAFNSCode_eq]
    decide
  rw [ExecuteAFNSLogic_eq_of_ne h,
    ExecuteAFNSLogic_eq_of_ne (show "fun main".toList ≠ [] by decide), hmain]
  exact ⟨rfl, rfl, by decide, rfl⟩

/-- C3 witness: the theorem applied at the concrete engine and input
`"fun main"`. -/
theorem c3_execute_updates_state_witness :
    (ExecuteAFNSLogic mkAFNSEngineExtension "fun main".toList).1
      = ProcessAFNSCode "fun main".toList ∧
    GetAFNSSState (ExecuteAFNSLogic mkAFNSEngineExtension "fun main".toList).2
      = "EXECUTED: ".toList ++ ProcessAFNSCode "fun main".toList ∧
    GetAFNSSState (ExecuteAFNSLogic mkAFNSEngineExtension "fun main".toList).2
      = "EXECUTED: Widget main".toList ∧
    (ExecuteAFNSLogic mkAFNSEngineExtension "fun main".toList).1
      = "Widget main".toList :=
  c3_execute_updates_state mkAFNSEngineExtension "fun main".toList (by decide)

/-- C4 counterexample: the input `"error: invalid_afns_logic"` is non-empty
(so validation accepts it) yet `ExecuteAFNSLogic` returns exactly the error
sentinel string, because the sentinel contains no `"fun "` and passes through
the substitution unchanged — so "an error result is returned iff the input is
empty" fails at the level of observable return values. -/
theorem c4_counterexample :
    "error: invalid_afns_logic".toList ≠ ([] : List Char) ∧
    (ExecuteAFNSLogic mkAFNSEngineExtension "error: invalid_afns_logic".toList).1
      = "error: invalid_afns_logic".toList := by
  refine ⟨by decide, ?_⟩
  rw [ExecuteAFNSLogic_eq_of_ne (show "error: invalid_afns_logic".toList ≠ [] by decide)]
  show ProcessAFNSCode "error: invalid_afns_logic".toList = _
  rw [ProcessAFNSCode_eq]
  decide

/-- C4 amended: validation accepts exactly the non-empty strings; the compile
result equals its sentinel iff the input is empty; the execute result equals
its sentinel iff the input is empty or the substitution maps the (non-empty)
input to the sentinel text itself — an in-band collision the string-valued
error signalling cannot exclude. -/
theorem c4_amended_error_iff (e : AFNSEngineExtension) (code : List Char) :
    (ValidateAFNSCode code = true ↔ code ≠ []) ∧
    ((CompileAFNSWidget e code).1 = "error: invalid_afns_code".toList ↔ code = []) ∧
    ((ExecuteAFNSLogic e code).1 = "error: invalid_afns_logic".toList ↔
      (code = [] ∨ ProcessAFNSCode code = "error: invalid_afns_logic".toList)) := by
  refine ⟨⟨?_, ValidateAFNSCode_eq_true⟩, ?_, ?_⟩
  · intro hv h0
    subst h0
    exact absurd hv (by decide)
  · rcases eq_or_ne code [] with rfl | h
    · exact ⟨fun _ => rfl, fun _ => rfl⟩
    · rw [CompileAFNSWidget_eq_of_ne h]
      constructor
      · intro hc
        exfalso
        have h1 : ("Flutter Widget Generated from AFNS: ".toList
            ++ ProcessAFNSCode code)[0]? = some 'F' := rfl
        have hc' : "Flutter Widget Generated from AFNS: ".toList
            ++ ProcessAFNSCode code = "error: invalid_afns_code".toList := hc
        rw [hc'] at h1
        exact absurd h1 (by decide)
      · intro h0
        exact absurd h0 h
  · rcases eq_or_ne code [] with rfl | h
    · exact ⟨fun _ => Or.inl rfl, fun _ => rfl⟩
    · rw [ExecuteAFNSLogic_eq_of_ne h]
      exact ⟨fun hc => Or.inr hc, fun h0 => h0.elim (fun h0 => absurd h0 h) id⟩

/-- C5: non-empty input containing no occurrence of `"fun "` passes through
the substitution unchanged: execute returns it as is, compile returns it with
only the fixed prefix prepended. -/
theorem c5_no_occurrence_identity (e : AFNSEngineExtension) (code : List Char)
    (hocc : countOcc code = 0) (hne : code ≠ []) :
    ProcessAFNSCode code = code ∧
    (ExecuteAFNSLogic e code).1 = code ∧
    (CompileAFNSWidget e code).1
      = "Flutter Widget Generated from AFNS: ".toList ++ code := by
  have hp : ProcessAFNSCode code = code := by
    rw [ProcessAFNSCode_eq, processR_no_match (countOcc_eq_zero_iff.mp hocc)]
  rw [ExecuteAFNSLogic_eq_of_ne hne, CompileAFNSWidget_eq_of_ne hne, hp]
  exact ⟨rfl, rfl, rfl⟩

/-- C5 witness: the theorem applied at the concrete input `"hello"`. -/
theorem c5_no_occurrence_identity_witness :
    ProcessAFNSCode "hello".toList = "hello".toList ∧
    (ExecuteAFNSLogic mkAFNSEngineExtension "hello".toList).1 = "hello".toList ∧
    (CompileAFNSWidget mkAFNSEngineExtension "hello".toList).1
      = "Flutter Widget Generated from AFNS: ".toList ++ "hello".toList :=
  c5_no_occurrence_identity mkAFNSEngineExtension "hello".toList (by decide) (by decide)

/-- C6: set-then-get round-trip on the engine state — the setter replaces
`internal_afns_state_` wholesale with `s` and the getter then returns exactly
`s`. -/
theorem c6_set_get_roundtrip (e : AFNSEngineExtension) (s : List Char) :
    UpdateAFNSSState e s = ⟨s⟩ ∧ GetAFNSSState (UpdateAFNSSState e s) = s :=
  ⟨rfl, rfl⟩

/-- C7: each demo button click overwrites the display buffer with that
fixed literal of that button regardless of the prior contents; hence every button
action is idempotent and its result is independent of the prior buffer. -/
theorem c7_button_overwrite (b : DemoButton) (buf buf' : List Char) :
    clickCallback b buf = (buttonLit b).toList ∧
    clickCallback b (clickCallback b buf) = clickCallback b buf ∧
    clickCallback b buf = clickCallback b buf' :=
  ⟨rfl, rfl, rfl⟩

/-- C8: the two JNI entry points are deterministic and stateless: each uses a
fresh local engine, so the result depends only on the input string (equal for
any two global-singleton states), the global `g_afns_engine` is returned
unchanged (never read or written), and the state write of `ExecuteAFNSLogic`
hits only the discarded local engine, so it is unobservable by later calls. -/
theorem c8_jni_stateless (g g' : Option AFNSEngineExtension) (code : List Char) :
    (nativeCompileAFNSWidget g code).1 = (nativeCompileAFNSWidget g' code).1 ∧
    (nativeCompileAFNSWidget g code).2 = g ∧
    (nativeExecuteAFNSLogic g code).1 = (nativeExecuteAFNSLogic g' code).1 ∧
    (nativeExecuteAFNSLogic g code).2 = g ∧
    (nativeCompileAFNSWidget g code).1 = (CompileAFNSWidget mkAFNSEngineExtension code).1 ∧
    (nativeExecuteAFNSLogic g code).1 = (ExecuteAFNSLogic mkAFNSEngineExtension code).1 :=
  ⟨rfl, rfl, rfl, rfl, rfl, rfl⟩

/-- C9: the output of `ProcessAFNSCode` contains no occurrence of the token
`"fun "`: the inserted `"Widget "` cannot form a new occurrence with the
surrounding text, and the `pos += 6` advance never skips an unreplaced
occurrence (both facts are what `loopReplace_eq_processR` rests on). -/
theorem c9_output_has_no_fun_token (code : List Char) :
    countOcc (ProcessAFNSCode code) = 0 := by
  rw [ProcessAFNSCode_eq]
  exact countOcc_processR code

/-- C10: every string the demo copies via `strcpy` into the 1024-byte
`afns_result_buffer` — the six button literals and the initial text in
`main` — fits within the buffer, terminating NUL included. -/
theorem c10_strcpy_in_bounds :
    (∀ b : DemoButton, (buttonLit b).utf8ByteSize + 1 ≤ afnsResultBufferSize) ∧
    initialLit.utf8ByteSize + 1 ≤ afnsResultBufferSize := by
  constructor
  · intro b
    cases b <;> decide
  · decide
